import Mathlib

/-!
# Verification of the lawarchive versioned statute store

A shallow embedding of the `cosilico-lawarchive` repository:

* Part A embeds `scripts/catalog_snap.py` — the external metadata
  registrar: file hashing (`compute_file_hash`), MIME detection
  (`get_mime_type`), and the `catalog_document` control flow over an
  abstract metadata-store server, instrumented with a call log.
  A concrete server model (`supabase`) captures the uniqueness
  constraints the script's 409-handling relies on.
* Part B embeds the storage/query contract of
  `src/lawarchive/storage/base.py`.  The concrete realization
  (`lawarchive/storage/sqlite.py`, `lawarchive/models.py`) is not in
  the repository snapshot, so those operations are modelled from the
  spec's §3/§4.3 wording, as marked in their doc comments.

Bytes are modelled as `Nat`, file contents as `List Nat`, and the
SHA-256 compression is an abstract parameter `digest`: per the hashlib
contract, a hash object's observable state is exactly the byte stream
fed to it so far, and `hexdigest` is a pure function of that stream.
-/

/-- State of a hashlib SHA-256 object: the byte stream fed so far.
`update` is documented to be equivalent to feeding the concatenation. -/
def sha256Update (acc block : List Nat) : List Nat := acc ++ block

/-- The 4096-byte blocks produced by `iter(lambda: f.read(4096), b"")`:
successive chunks of the file contents until the read comes back empty. -/
def readBlocks : List Nat → List (List Nat)
  | [] => []
  | b :: rest => ((b :: rest).take 4096) :: readBlocks ((b :: rest).drop 4096)
termination_by l => l.length
decreasing_by
  simp [List.length_drop]
  omega

/-- Embeds `compute_file_hash` (catalog_snap.py lines 17-23): feed the file
to an incremental SHA-256 in 4096-byte blocks and take the hex digest.
`digest` abstracts the SHA-256 hex-digest function on a full byte stream. -/
def compute_file_hash (digest : List Nat → String) (contents : List Nat) : String :=
  digest ((readBlocks contents).foldl sha256Update [])

/-- One-pass reference: SHA-256 hex digest of the entire contents at once. -/
def sha256_full (digest : List Nat → String) (contents : List Nat) : String :=
  digest contents

/-- Embeds `get_file_size`: size of the file in bytes. -/
def get_file_size (contents : List Nat) : Nat := contents.length

/-- Embeds `get_mime_type` (catalog_snap.py lines 31-39): MIME type from the
lower-cased file suffix, defaulting to application/octet-stream. -/
def get_mime_type (suffix : String) : String :=
  let s := suffix.toLower
  if s == ".xml" then "application/xml"
  else if s == ".pdf" then "application/pdf"
  else if s == ".html" then "text/html"
  else "application/octet-stream"

theorem readBlocks_flatten (l : List Nat) : (readBlocks l).flatten = l := by
  induction l using readBlocks.induct with
  | case1 => simp [readBlocks]
  | case2 b rest ih =>
      simp only [readBlocks, List.flatten_cons, ih]
      exact List.take_append_drop 4096 (b :: rest)

theorem foldl_sha256Update (ls : List (List Nat)) (acc : List Nat) :
    ls.foldl sha256Update acc = acc ++ ls.flatten := by
  induction ls generalizing acc with
  | nil => simp
  | cons x xs ih => simp [sha256Update, ih, List.append_assoc]

/-- The chunked incremental hash agrees with hashing the whole contents. -/
theorem compute_file_hash_eq (digest : List Nat → String) (contents : List Nat) :
    compute_file_hash digest contents = digest contents := by
  simp [compute_file_hash, foldl_sha256Update, readBlocks_flatten]

/-- The `source_data` payload built at catalog_snap.py lines 70-78. -/
structure SourceData where
  path : String
  jurisdiction : String
  docType : String
  sourceUrl : String
  title : String
  crawlEnabled : Bool
  lastCrawlAt : String
deriving DecidableEq, Repr

/-- A row of the metadata store's `sources` table as returned in a response
body; the script reads only `id` but the row carries its data. -/
structure SourceRec where
  id : Nat
  data : SourceData
deriving DecidableEq, Repr

/-- The `version_data` payload built at catalog_snap.py lines 111-122. -/
structure VersionData where
  sourceId : Nat
  contentHash : String
  r2Key : String
  fileSizeBytes : Nat
  mimeType : String
  publishedAt : Option String
  retrievedAt : String
  appliesFromYear : Option Int
  appliesToYear : Option Int
  isCurrent : Bool
deriving DecidableEq, Repr

/-- A row of the metadata store's `versions` table. -/
structure VersionRec where
  id : Nat
  data : VersionData
deriving DecidableEq, Repr

/-- An HTTP response from the `sources` endpoint: status plus JSON body. -/
structure SourceResponse where
  status : Nat
  body : List SourceRec
deriving DecidableEq, Repr

/-- An HTTP response from the `versions` endpoint: status plus JSON body. -/
structure VersionResponse where
  status : Nat
  body : List VersionRec
deriving DecidableEq, Repr

/-- The four metadata-store endpoints catalog_snap.py talks to, as
state-passing functions over an abstract server state `σ`. -/
structure Server (σ : Type) where
  postSource : σ → SourceData → SourceResponse × σ
  getSourceByPath : σ → String → SourceResponse × σ
  postVersion : σ → VersionData → VersionResponse × σ
  getVersionByHash : σ → Nat → String → VersionResponse × σ

/-- A logged request made by `catalog_document`. -/
inductive ServerCall where
  | postSource (data : SourceData)
  | getSourceByPath (path : String)
  | postVersion (data : VersionData)
  | getVersionByHash (sourceId : Nat) (contentHash : String)
deriving DecidableEq, Repr

/-- The arguments of `catalog_document` (catalog_snap.py lines 42-56); the
local file appears as its byte contents and suffix, and `datetime.now()`
as the explicit `now`. -/
structure CatalogArgs where
  path : String
  jurisdiction : String
  docType : String
  sourceUrl : String
  title : String
  r2Key : String
  localContents : List Nat
  localSuffix : String
  publishedAt : Option String := none
  appliesFromYear : Option Int := none
  appliesToYear : Option Int := none
  isCurrent : Bool := true
  now : String
deriving DecidableEq, Repr

/-- The Python function's observable result: `crashed` for an unhandled
IndexError on an empty response body, `noResult` for `return None`,
`sourceOnly` for `return {"source_id": ...}`, `full` for the dict with
both ids. -/
inductive CatalogOutcome where
  | crashed
  | noResult
  | sourceOnly (sourceId : Nat)
  | full (sourceId : Nat) (versionId : Nat)
deriving DecidableEq, Repr

/-- The `source_data` dict of catalog_snap.py lines 70-78. -/
def sourceDataOf (a : CatalogArgs) : SourceData :=
  { path := a.path
    jurisdiction := a.jurisdiction
    docType := a.docType
    sourceUrl := a.sourceUrl
    title := a.title
    crawlEnabled := true
    lastCrawlAt := a.now }

/-- The `version_data` dict of catalog_snap.py lines 111-122: content hash
of the local file, file size, MIME type, and the caller's fields verbatim. -/
def versionDataOf (digest : List Nat → String) (a : CatalogArgs) (sourceId : Nat) :
    VersionData :=
  { sourceId := sourceId
    contentHash := compute_file_hash digest a.localContents
    r2Key := a.r2Key
    fileSizeBytes := get_file_size a.localContents
    mimeType := get_mime_type a.localSuffix
    publishedAt := a.publishedAt
    retrievedAt := a.now
    appliesFromYear := a.appliesFromYear
    appliesToYear := a.appliesToYear
    isCurrent := a.isCurrent }

/-- Outcome of the source-record step (catalog_snap.py lines 80-103). -/
inductive SourceStep where
  | fail
  | crash
  | ok (src : SourceRec)
deriving DecidableEq, Repr

/-- Step 1 of `catalog_document` (lines 80-103): POST the source; on 201
read the created row, on 409 GET the existing row by path, otherwise give
up (`return None`). -/
def sourcePhase {σ : Type} (srv : Server σ) (s : σ) (a : CatalogArgs) :
    SourceStep × σ × List ServerCall :=
  let d := sourceDataOf a
  let (r1, s1) := srv.postSource s d
  if r1.status == 201 then
    match r1.body.head? with
    | some src => (.ok src, s1, [.postSource d])
    | none => (.crash, s1, [.postSource d])
  else if r1.status == 409 then
    let (r2, s2) := srv.getSourceByPath s1 a.path
    match r2.body.head? with
    | some src => (.ok src, s2, [.postSource d, .getSourceByPath a.path])
    | none => (.crash, s2, [.postSource d, .getSourceByPath a.path])
  else
    (.fail, s1, [.postSource d])

/-- Steps 2-3 of `catalog_document` (lines 105-153): build `version_data`,
POST it; on 201 read the created row, on 409 GET the existing row by
(source_id, content_hash), otherwise return the partial dict. -/
def versionPhase {σ : Type} (digest : List Nat → String) (srv : Server σ) (s : σ)
    (a : CatalogArgs) (sourceId : Nat) : CatalogOutcome × σ × List ServerCall :=
  let vd := versionDataOf digest a sourceId
  let (r3, s3) := srv.postVersion s vd
  if r3.status == 201 then
    match r3.body.head? with
    | some v => (.full sourceId v.id, s3, [.postVersion vd])
    | none => (.crashed, s3, [.postVersion vd])
  else if r3.status == 409 then
    let (r4, s4) := srv.getVersionByHash s3 sourceId vd.contentHash
    match r4.body.head? with
    | some v =>
        (.full sourceId v.id, s4,
          [.postVersion vd, .getVersionByHash sourceId vd.contentHash])
    | none =>
        (.crashed, s4,
          [.postVersion vd, .getVersionByHash sourceId vd.contentHash])
  else
    (.sourceOnly sourceId, s3, [.postVersion vd])

/-- Embeds `catalog_document` (catalog_snap.py lines 42-153) against an
abstract metadata-store server, returning the outcome, the final server
state and the log of requests issued. -/
def catalog_document {σ : Type} (digest : List Nat → String) (srv : Server σ)
    (s : σ) (a : CatalogArgs) : CatalogOutcome × σ × List ServerCall :=
  match sourcePhase srv s a with
  | (.fail, s1, log1) => (.noResult, s1, log1)
  | (.crash, s1, log1) => (.crashed, s1, log1)
  | (.ok src, s1, log1) =>
      let (out, s2, log2) := versionPhase digest srv s1 a src.id
      (out, s2, log1 ++ log2)

/-- State of the metadata store: sources, versions, and an id counter. -/
structure SupabaseState where
  sources : List SourceRec
  versions : List VersionRec
  nextId : Nat
deriving DecidableEq, Repr

/-- Modelled from the spec: the external metadata store (out of scope,
§6) rejects a second source with the same `path` with HTTP 409, which is
the conflict the script's 409 branch at catalog_snap.py line 90 handles. -/
def supabasePostSource (s : SupabaseState) (d : SourceData) :
    SourceResponse × SupabaseState :=
  if s.sources.any (fun r => r.data.path == d.path) then
    (⟨409, []⟩, s)
  else
    let r : SourceRec := ⟨s.nextId, d⟩
    (⟨201, [r]⟩, { s with sources := s.sources ++ [r], nextId := s.nextId + 1 })

/-- Modelled from the spec: GET `/sources?path=eq.{path}` returns the rows
whose path matches. -/
def supabaseGetSourceByPath (s : SupabaseState) (path : String) :
    SourceResponse × SupabaseState :=
  (⟨200, s.sources.filter (fun r => r.data.path == path)⟩, s)

/-- Modelled from the spec: the metadata store rejects a second version with
the same (source_id, content_hash) with HTTP 409 — the `DuplicateVersion`
constraint of §7 that the script's 409 branch at line 135 relies on. -/
def supabasePostVersion (s : SupabaseState) (d : VersionData) :
    VersionResponse × SupabaseState :=
  if s.versions.any
      (fun v => v.data.sourceId == d.sourceId && v.data.contentHash == d.contentHash) then
    (⟨409, []⟩, s)
  else
    let v : VersionRec := ⟨s.nextId, d⟩
    (⟨201, [v]⟩, { s with versions := s.versions ++ [v], nextId := s.nextId + 1 })

/-- Modelled from the spec: GET `/versions?source_id=eq.&content_hash=eq.`
returns the rows matching both filters. -/
def supabaseGetVersionByHash (s : SupabaseState) (sourceId : Nat)
    (contentHash : String) : VersionResponse × SupabaseState :=
  (⟨200,
     s.versions.filter
       (fun v => v.data.sourceId == sourceId && v.data.contentHash == contentHash)⟩,
   s)

/-- The concrete metadata-store server the script is run against. -/
def supabase : Server SupabaseState :=
  { postSource := supabasePostSource
    getSourceByPath := supabaseGetSourceByPath
    postVersion := supabasePostVersion
    getVersionByHash := supabaseGetVersionByHash }

/-- A concrete stand-in digest function used only in witnesses. -/
def demoDigest (l : List Nat) : String :=
  toString (l.foldl (fun acc b => acc * 257 + b) 1)

/-- Concrete arguments used only in witnesses. -/
def demoArgs : CatalogArgs :=
  { path := "us/statute/7/51"
    jurisdiction := "us"
    docType := "statute"
    sourceUrl := "https://example.org/ch51"
    title := "7 USC Chapter 51"
    r2Key := "us/statute/7/51/chapter51.xml"
    localContents := [60, 100, 111, 99, 62]
    localSuffix := ".xml"
    publishedAt := some "2023-08-01"
    appliesFromYear := some 2024
    appliesToYear := some 2024
    isCurrent := true
    now := "2026-10-12T00:00:00" }

theorem sourcePhase_no_postVersion {σ : Type} (srv : Server σ) (s : σ)
    (a : CatalogArgs) (vd : VersionData) :
    ServerCall.postVersion vd ∉ (sourcePhase srv s a).2.2 := by
  simp only [sourcePhase]
  rcases srv.postSource s (sourceDataOf a) with ⟨r1, s1⟩
  split
  · split <;> simp
  · split
    · rcases srv.getSourceByPath s1 a.path with ⟨r2, s2⟩
      split <;> simp
    · simp

theorem versionPhase_log {σ : Type} (digest : List Nat → String) (srv : Server σ)
    (s : σ) (a : CatalogArgs) (sid : Nat) :
    (∀ vd, ServerCall.postVersion vd ∈ (versionPhase digest srv s a sid).2.2 →
      vd = versionDataOf digest a sid) ∧
    ServerCall.postVersion (versionDataOf digest a sid) ∈
      (versionPhase digest srv s a sid).2.2 ∧
    (∀ srcId vid, (versionPhase digest srv s a sid).1 = .full srcId vid →
      srcId = sid) := by
  simp only [versionPhase]
  rcases srv.postVersion s (versionDataOf digest a sid) with ⟨r3, s3⟩
  split
  · split <;> simp
  · split
    · rcases srv.getVersionByHash s3 sid (versionDataOf digest a sid).contentHash with ⟨r4, s4⟩
      split <;> simp
    · simp

/-- A server whose source POST fails with HTTP 500; used only in witnesses. -/
def failServer : Server Unit :=
  { postSource := fun s _ => (⟨500, []⟩, s)
    getSourceByPath := fun s _ => (⟨200, []⟩, s)
    postVersion := fun s _ => (⟨500, []⟩, s)
    getVersionByHash := fun s _ _ => (⟨200, []⟩, s) }

/-- A server that creates sources but fails version POSTs with HTTP 500;
used only in witnesses. -/
def halfFailServer : Server Unit :=
  { postSource := fun s d => (⟨201, [⟨0, d⟩]⟩, s)
    getSourceByPath := fun s _ => (⟨200, []⟩, s)
    postVersion := fun s _ => (⟨500, []⟩, s)
    getVersionByHash := fun s _ _ => (⟨200, []⟩, s) }

/-- C10: `catalog_document` returns None (`noResult`) when source creation
fails with a status other than 201 or 409, without issuing the version
POST at all; and when source creation succeeds (201) but the version POST
fails with a status other than 201 or 409, it returns a partial result
carrying only the source id. -/
theorem catalog_document_error_paths {σ : Type} (digest : List Nat → String)
    (srv : Server σ) (s : σ) (a : CatalogArgs) (r1 : SourceResponse) (s1 : σ)
    (h1 : srv.postSource s (sourceDataOf a) = (r1, s1)) :
    (r1.status ≠ 201 → r1.status ≠ 409 →
      catalog_document digest srv s a =
        (.noResult, s1, [.postSource (sourceDataOf a)])) ∧
    (∀ (src : SourceRec) (r3 : VersionResponse) (s3 : σ),
      r1.status = 201 → r1.body.head? = some src →
      srv.postVersion s1 (versionDataOf digest a src.id) = (r3, s3) →
      r3.status ≠ 201 → r3.status ≠ 409 →
      catalog_document digest srv s a =
        (.sourceOnly src.id, s3,
          [.postSource (sourceDataOf a),
           .postVersion (versionDataOf digest a src.id)])) := by
  constructor
  · intro hn1 hn2
    simp [catalog_document, sourcePhase, h1, hn1, hn2]
  · intro src r3 s3 h201 hhead h3 hn1 hn2
    simp [catalog_document, sourcePhase, versionPhase, h1, h201, hhead, h3, hn1, hn2]

/-- Witness for `catalog_document_error_paths` at concrete servers. -/
theorem catalog_document_error_paths_witness :
    catalog_document demoDigest failServer () demoArgs =
      (.noResult, (), [.postSource (sourceDataOf demoArgs)]) ∧
    catalog_document demoDigest halfFailServer () demoArgs =
      (.sourceOnly 0, (),
        [.postSource (sourceDataOf demoArgs),
         .postVersion (versionDataOf demoDigest demoArgs 0)]) := by
  constructor
  · exact (catalog_document_error_paths demoDigest failServer () demoArgs
      ⟨500, []⟩ () rfl).1 (by decide) (by decide)
  · exact (catalog_document_error_paths demoDigest halfFailServer () demoArgs
      ⟨201, [⟨0, sourceDataOf demoArgs⟩]⟩ () rfl).2
      ⟨0, sourceDataOf demoArgs⟩ ⟨500, []⟩ () rfl rfl rfl (by decide) (by decide)

/-- C9: `compute_file_hash`, which feeds the file to an incremental SHA-256
in 4096-byte blocks, returns the same digest as hashing the entire
contents in one pass; hence byte-identical files get the same hash. -/
theorem compute_file_hash_onepass_equiv (digest : List Nat → String)
    (c₁ c₂ : List Nat) :
    compute_file_hash digest c₁ = sha256_full digest c₁ ∧
    (c₁ = c₂ → compute_file_hash digest c₁ = compute_file_hash digest c₂) := by
  refine ⟨compute_file_hash_eq digest c₁, fun h => by rw [h]⟩

/-- Witness for `compute_file_hash_onepass_equiv` on a concrete file. -/
theorem compute_file_hash_onepass_equiv_witness :
    compute_file_hash demoDigest [1, 2, 3] = sha256_full demoDigest [1, 2, 3] ∧
    compute_file_hash demoDigest [1, 2, 3] = compute_file_hash demoDigest [1, 2, 3] :=
  ⟨(compute_file_hash_onepass_equiv demoDigest [1, 2, 3] [1, 2, 3]).1,
   (compute_file_hash_onepass_equiv demoDigest [1, 2, 3] [1, 2, 3]).2 rfl⟩

/-- C8: every version record `catalog_document` registers is the
`version_data` payload built from the obtained source id: its
content_hash is the SHA-256 of the local file contents, and r2_key,
published_at, applies_from_year, applies_to_year and is_current are the
caller's arguments verbatim; and a fully successful run did POST exactly
that payload to the metadata store. -/
theorem catalog_document_registers_fields {σ : Type} (digest : List Nat → String)
    (srv : Server σ) (s : σ) (a : CatalogArgs) :
    (∀ vd : VersionData,
      ServerCall.postVersion vd ∈ (catalog_document digest srv s a).2.2 →
      ∃ srcId : Nat,
        vd = versionDataOf digest a srcId ∧
        vd.contentHash = digest a.localContents ∧
        vd.r2Key = a.r2Key ∧
        vd.publishedAt = a.publishedAt ∧
        vd.appliesFromYear = a.appliesFromYear ∧
        vd.appliesToYear = a.appliesToYear ∧
        vd.isCurrent = a.isCurrent ∧
        vd.sourceId = srcId) ∧
    (∀ srcId vid : Nat, (catalog_document digest srv s a).1 = .full srcId vid →
      ServerCall.postVersion (versionDataOf digest a srcId) ∈
        (catalog_document digest srv s a).2.2) := by
  rcases hsp : sourcePhase srv s a with ⟨step, s1, log1⟩
  have hnp : ∀ vd : VersionData, ServerCall.postVersion vd ∉ log1 := by
    intro vd
    have hh := sourcePhase_no_postVersion srv s a vd
    rw [hsp] at hh
    exact hh
  cases step with
  | fail =>
      constructor
      · intro vd hmem
        simp only [catalog_document, hsp] at hmem
        exact absurd hmem (hnp vd)
      · intro srcId vid hout
        simp [catalog_document, hsp] at hout
  | crash =>
      constructor
      · intro vd hmem
        simp only [catalog_document, hsp] at hmem
        exact absurd hmem (hnp vd)
      · intro srcId vid hout
        simp [catalog_document, hsp] at hout
  | ok src =>
      have hv := versionPhase_log digest srv s1 a src.id
      rcases hvp : versionPhase digest srv s1 a src.id with ⟨out2, s2, log2⟩
      rw [hvp] at hv
      constructor
      · intro vd hmem
        simp only [catalog_document, hsp, hvp] at hmem
        rcases List.mem_append.mp hmem with hm | hm
        · exact absurd hm (hnp vd)
        · have heq := hv.1 vd hm
          subst heq
          refine ⟨src.id, rfl, ?_, rfl, rfl, rfl, rfl, rfl, rfl⟩
          simp [versionDataOf, compute_file_hash_eq]
      · intro srcId vid hout
        simp only [catalog_document, hsp, hvp] at hout
        have hsid : srcId = src.id := hv.2.2 srcId vid hout
        subst hsid
        simp only [catalog_document, hsp, hvp]
        exact List.mem_append.mpr (Or.inr hv.2.1)

/-- Witness for `catalog_document_registers_fields` at a concrete run. -/
theorem catalog_document_registers_fields_witness :
    ∃ srcId : Nat,
      versionDataOf demoDigest demoArgs 0 = versionDataOf demoDigest demoArgs srcId ∧
      (versionDataOf demoDigest demoArgs 0).contentHash =
        demoDigest demoArgs.localContents ∧
      (versionDataOf demoDigest demoArgs 0).r2Key = demoArgs.r2Key ∧
      (versionDataOf demoDigest demoArgs 0).publishedAt = demoArgs.publishedAt ∧
      (versionDataOf demoDigest demoArgs 0).appliesFromYear = demoArgs.appliesFromYear ∧
      (versionDataOf demoDigest demoArgs 0).appliesToYear = demoArgs.appliesToYear ∧
      (versionDataOf demoDigest demoArgs 0).isCurrent = demoArgs.isCurrent ∧
      (versionDataOf demoDigest demoArgs 0).sourceId = srcId :=
  (catalog_document_registers_fields demoDigest halfFailServer () demoArgs).1
    (versionDataOf demoDigest demoArgs 0)
    (by simp [catalog_document, sourcePhase, versionPhase, halfFailServer])

theorem any_of_filter_head {α : Type} (p : α → Bool) (l : List α) (x : α)
    (h : (l.filter p).head? = some x) : l.any p = true := by
  have hx : x ∈ l.filter p := List.mem_of_mem_head? (by simp [Option.mem_def, h])
  have hm := List.mem_filter.mp hx
  exact List.any_eq_true.mpr ⟨x, hm.1, hm.2⟩

/-- C3: registering a version whose content hash equals an
already-registered version of the same source is a no-op success: the
store replies 409, `catalog_document` fetches and returns the existing
version's id, the store state is completely unchanged, and no second
version row is created. -/
theorem duplicate_version_noop (digest : List Nat → String) (s : SupabaseState)
    (a : CatalogArgs) (src : SourceRec) (v : VersionRec)
    (hsrc : (s.sources.filter (fun r => r.data.path == a.path)).head? = some src)
    (hdup : (s.versions.filter (fun w =>
        w.data.sourceId == src.id &&
        w.data.contentHash == compute_file_hash digest a.localContents)).head? =
      some v) :
    catalog_document digest supabase s a =
      (.full src.id v.id, s,
        [.postSource (sourceDataOf a), .getSourceByPath a.path,
         .postVersion (versionDataOf digest a src.id),
         .getVersionByHash src.id (compute_file_hash digest a.localContents)]) := by
  have hany1 : s.sources.any (fun r => r.data.path == a.path) = true :=
    any_of_filter_head _ _ _ hsrc
  have hany2 : s.versions.any (fun w =>
      w.data.sourceId == src.id &&
      w.data.contentHash == compute_file_hash digest a.localContents) = true :=
    any_of_filter_head _ _ _ hdup
  simp [catalog_document, sourcePhase, versionPhase, supabase,
    supabasePostSource, supabaseGetSourceByPath, supabasePostVersion,
    supabaseGetVersionByHash, sourceDataOf, versionDataOf, hany1, hany2,
    hsrc, hdup]

/-- A metadata-store state that already holds `demoArgs`' source and its
version; used only in witnesses. -/
def demoSupabase : SupabaseState :=
  { sources := [⟨0, sourceDataOf demoArgs⟩]
    versions := [⟨1, versionDataOf demoDigest demoArgs 0⟩]
    nextId := 2 }

/-- Witness for `duplicate_version_noop` at a concrete store state. -/
theorem duplicate_version_noop_witness :
    catalog_document demoDigest supabase demoSupabase demoArgs =
      (.full 0 1, demoSupabase,
        [.postSource (sourceDataOf demoArgs), .getSourceByPath demoArgs.path,
         .postVersion (versionDataOf demoDigest demoArgs 0),
         .getVersionByHash 0 (compute_file_hash demoDigest demoArgs.localContents)]) :=
  duplicate_version_noop demoDigest demoSupabase demoArgs
    ⟨0, sourceDataOf demoArgs⟩ ⟨1, versionDataOf demoDigest demoArgs 0⟩
    (by simp [demoSupabase, sourceDataOf]) (by simp [demoSupabase, versionDataOf])

/-- Modelled from the spec (§3, `lawarchive/models.py` is not in the
snapshot): a Version — a retrieved, hashed, time-bounded copy of a
source, with validity window and currency flag. -/
structure Version where
  versionId : Nat
  sourceId : Nat
  contentHash : String
  retrievedAt : Nat
  appliesFromYear : Option Int
  appliesToYear : Option Int
  isCurrent : Bool
deriving DecidableEq, Repr

/-- Modelled from the spec (§3): a stored Section row, identified by
(title, section label, optional subsection label, version). -/
structure SectionRow where
  title : Nat
  sectionLabel : String
  subsection : Option String
  versionId : Nat
  heading : String
  body : String
deriving DecidableEq, Repr

/-- Modelled from the spec (§3): an extracted citation edge from a citing
provision to a resolved target key, tied to the version it was parsed
from, with its text offset. -/
structure CitationRow where
  srcTitle : Nat
  srcSection : String
  srcSubsection : Option String
  tgtTitle : Nat
  tgtSection : String
  tgtSubsection : Option String
  versionId : Nat
  offset : Nat
deriving DecidableEq, Repr

/-- A calendar date; `get_section`'s temporal window logic uses the year. -/
structure Date where
  year : Int
  month : Nat
  day : Nat
deriving DecidableEq, Repr

/-- Modelled from the spec (§6): the persisted layout — versions, section
rows referencing versions, and citation rows. -/
structure Store where
  versions : List Version
  sections : List SectionRow
  citations : List CitationRow
deriving DecidableEq, Repr

/-- Look up a Version by its identifier. -/
def findVersion (st : Store) (vid : Nat) : Option Version :=
  st.versions.find? (fun v => v.versionId == vid)

/-- Modelled from the spec (§4.3): the validity window
`[applies_from_year, applies_to_year-or-open]` contains a year; a missing
bound is open-ended. -/
def windowContains (v : Version) (y : Int) : Bool :=
  (v.appliesFromYear.all fun f => decide (f ≤ y)) &&
  (v.appliesToYear.all fun t => decide (y ≤ t))

/-- Modelled from the spec (§4.3): with `as_of`, a version qualifies when
its window contains `as_of`'s year; without, when it is current. -/
def versionMatches (asOf : Option Date) (v : Version) : Bool :=
  match asOf with
  | some d => windowContains v d.year
  | none => v.isCurrent

/-- Section rows matching a (title, section, subsection) key. -/
def matchingRows (st : Store) (t : Nat) (s : String) (sub : Option String) :
    List SectionRow :=
  st.sections.filter fun r =>
    r.title == t && r.sectionLabel == s && r.subsection == sub

/-- Matching rows whose version qualifies for the given `as_of`. -/
def candidateRows (st : Store) (t : Nat) (s : String) (sub : Option String)
    (asOf : Option Date) : List SectionRow :=
  (matchingRows st t s sub).filter fun r =>
    (findVersion st r.versionId).any (versionMatches asOf)

/-- The `retrieved_at` stamp of a row's version (0 for a dangling row). -/
def retrievedOf (st : Store) (r : SectionRow) : Nat :=
  match findVersion st r.versionId with
  | some v => v.retrievedAt
  | none => 0

/-- The candidate with the most recent `retrieved_at`; on a tie the earlier
stored row wins, keeping the choice deterministic. -/
def pickLatest (st : Store) : List SectionRow → Option SectionRow
  | [] => none
  | r :: rs =>
      match pickLatest st rs with
      | none => some r
      | some r2 => if retrievedOf st r < retrievedOf st r2 then some r2 else some r

/-- Modelled from the spec (§4.3, the `StorageBackend.get_section`
realization is not in the snapshot): point-in-time retrieval — with
`as_of`, the row of the version whose window contains the year, preferring
the most recently retrieved on overlap; without `as_of`, the row of the
current version; `none` when no match exists. -/
def get_section (st : Store) (t : Nat) (s : String) (sub : Option String)
    (asOf : Option Date) : Option SectionRow :=
  pickLatest st (candidateRows st t s sub asOf)

theorem pickLatest_cons_isSome (st : Store) (x : SectionRow)
    (xs : List SectionRow) : (pickLatest st (x :: xs)).isSome := by
  simp only [pickLatest]
  cases pickLatest st xs with
  | none => rfl
  | some r2 => by_cases h : retrievedOf st x < retrievedOf st r2 <;> simp [h]

theorem pickLatest_eq_none (st : Store) (l : List SectionRow)
    (h : pickLatest st l = none) : l = [] := by
  cases l with
  | nil => rfl
  | cons x xs =>
      have := pickLatest_cons_isSome st x xs
      rw [h] at this
      cases this

theorem pickLatest_mem (st : Store) (l : List SectionRow) (r : SectionRow)
    (h : pickLatest st l = some r) : r ∈ l := by
  induction l generalizing r with
  | nil => cases h
  | cons x xs ih =>
      cases hp : pickLatest st xs with
      | none =>
          simp only [pickLatest, hp] at h
          cases h
          exact List.mem_cons_self _ _
      | some r2 =>
          simp only [pickLatest, hp] at h
          by_cases hlt : retrievedOf st x < retrievedOf st r2
          · rw [if_pos hlt] at h; cases h; exact List.mem_cons_of_mem _ (ih _ hp)
          · rw [if_neg hlt] at h; cases h; exact List.mem_cons_self _ _

theorem pickLatest_max (st : Store) (l : List SectionRow) (r : SectionRow)
    (h : pickLatest st l = some r) :
    ∀ r' ∈ l, retrievedOf st r' ≤ retrievedOf st r := by
  induction l generalizing r with
  | nil => cases h
  | cons x xs ih =>
      intro r' hr'
      cases hp : pickLatest st xs with
      | none =>
          simp only [pickLatest, hp] at h
          cases h
          have hxs : xs = [] := pickLatest_eq_none st xs hp
          subst hxs
          rcases List.mem_singleton.mp hr' with rfl
          exact le_refl _
      | some r2 =>
          simp only [pickLatest, hp] at h
          by_cases hlt : retrievedOf st x < retrievedOf st r2
          · rw [if_pos hlt] at h; cases h
            rcases List.mem_cons.mp hr' with rfl | hmem
            · exact Nat.le_of_lt hlt
            · exact ih _ hp r' hmem
          · rw [if_neg hlt] at h; cases h
            rcases List.mem_cons.mp hr' with rfl | hmem
            · exact le_refl _
            · exact Nat.le_trans (ih _ hp r' hmem) (Nat.le_of_not_lt hlt)

theorem candidateRows_sound (st : Store) (t : Nat) (s : String)
    (sub : Option String) (asOf : Option Date) (r : SectionRow)
    (h : r ∈ candidateRows st t s sub asOf) :
    r ∈ matchingRows st t s sub ∧
    ∃ v, findVersion st r.versionId = some v ∧ versionMatches asOf v = true := by
  have hm := List.mem_filter.mp h
  refine ⟨hm.1, ?_⟩
  have hany := hm.2
  cases ho : findVersion st r.versionId with
  | none => rw [ho] at hany; cases hany
  | some v =>
      rw [ho] at hany
      exact ⟨v, rfl, hany⟩

/-- Version A of the temporal-correctness scenario (§8): window 2024-2024,
not current. -/
def demoVersionA : Version := ⟨1, 1, "hashA", 10, some 2024, some 2024, false⟩

/-- Version B of the temporal-correctness scenario (§8): window 2025-open,
current. -/
def demoVersionB : Version := ⟨2, 1, "hashB", 20, some 2025, none, true⟩

/-- Section row of §2014 under Version A. -/
def demoRowA : SectionRow := ⟨7, "2014", none, 1, "Eligible households", "text as of 2024"⟩

/-- Section row of §2014 under Version B. -/
def demoRowB : SectionRow := ⟨7, "2014", none, 2, "Eligible households", "text as of 2025"⟩

/-- The store of the temporal-correctness scenario. -/
def demoStore : Store := ⟨[demoVersionA, demoVersionB], [demoRowA, demoRowB], []⟩

/-- C1: `get_section` with `as_of` returns a stored row of the requested
key whose version's validity window contains `as_of`'s year and whose
`retrieved_at` is maximal among the qualifying rows; without `as_of` it
returns a row of the current version.  In particular, in the §8 scenario
with Versions A (2024-2024, not current) and B (2025-open, current),
as_of 2024-09-01 yields A's text and as_of 2025-01-01 or no as_of yields
B's text. -/
theorem get_section_temporal_spec :
    (∀ (st : Store) (t : Nat) (s : String) (sub : Option String) (d : Date)
        (r : SectionRow), get_section st t s sub (some d) = some r →
      r ∈ matchingRows st t s sub ∧
      (∃ v, findVersion st r.versionId = some v ∧
        windowContains v d.year = true) ∧
      (∀ r' ∈ candidateRows st t s sub (some d),
        retrievedOf st r' ≤ retrievedOf st r)) ∧
    (∀ (st : Store) (t : Nat) (s : String) (sub : Option String)
        (r : SectionRow), get_section st t s sub none = some r →
      r ∈ matchingRows st t s sub ∧
      (∃ v, findVersion st r.versionId = some v ∧ v.isCurrent = true)) ∧
    (get_section demoStore 7 "2014" none (some ⟨2024, 9, 1⟩) = some demoRowA ∧
     get_section demoStore 7 "2014" none (some ⟨2025, 1, 1⟩) = some demoRowB ∧
     get_section demoStore 7 "2014" none none = some demoRowB) := by
  refine ⟨?_, ?_, by decide, by decide, by decide⟩
  · intro st t s sub d r h
    have hmem := pickLatest_mem st _ r h
    have hs := candidateRows_sound st t s sub (some d) r hmem
    rcases hs with ⟨hm, v, hv, hmatch⟩
    exact ⟨hm, ⟨v, hv, hmatch⟩, pickLatest_max st _ r h⟩
  · intro st t s sub r h
    have hmem := pickLatest_mem st _ r h
    have hs := candidateRows_sound st t s sub none r hmem
    rcases hs with ⟨hm, v, hv, hmatch⟩
    exact ⟨hm, ⟨v, hv, hmatch⟩⟩

/-- Witness for `get_section_temporal_spec` at the §8 scenario. -/
theorem get_section_temporal_spec_witness :
    demoRowA ∈ matchingRows demoStore 7 "2014" none ∧
    (∃ v, findVersion demoStore demoRowA.versionId = some v ∧
      windowContains v (Date.mk 2024 9 1).year = true) ∧
    (∀ r' ∈ candidateRows demoStore 7 "2014" none (some ⟨2024, 9, 1⟩),
      retrievedOf demoStore r' ≤ retrievedOf demoStore demoRowA) :=
  get_section_temporal_spec.1 demoStore 7 "2014" none ⟨2024, 9, 1⟩ demoRowA
    (by decide)

/-- C7: `get_section` is a total function into an optional result: it
returns `none` exactly when no stored row matches the key and temporal
predicate, and any `some` result is one of the matching candidates —
query misses surface as empty optionals, never as exceptions. -/
theorem get_section_notfound (st : Store) (t : Nat) (s : String)
    (sub : Option String) (asOf : Option Date) :
    (get_section st t s sub asOf = none ↔
      candidateRows st t s sub asOf = []) ∧
    get_section demoStore 7 "9999" none none = none := by
  refine ⟨⟨fun h => pickLatest_eq_none st _ h, fun h => ?_⟩, by decide⟩
  rw [get_section, h]
  rfl

/-- Modelled from the spec (§4.3): the canonical string key of a
(title, section) provision, as returned by the graph lookups. -/
def canonicalKey (t : Nat) (s : String) : String :=
  toString t ++ " USC " ++ s

/-- Modelled from the spec (§4.4): the citation set of the currently
applicable versions — citations from non-current versions are excluded. -/
def currentCitations (st : Store) : List CitationRow :=
  st.citations.filter fun c => (findVersion st c.versionId).any (·.isCurrent)

/-- Modelled from the spec (§4.3): sources citing the given target,
scoped to the current version's citation set, one edge per source. -/
def get_references_to (st : Store) (t : Nat) (s : String) : List String :=
  (((currentCitations st).filter fun c => c.tgtTitle == t && c.tgtSection == s).map
    fun c => canonicalKey c.srcTitle c.srcSection).dedup

/-- Modelled from the spec (§4.3): targets cited by the given source,
scoped to the current version's citation set, one edge per target. -/
def get_referenced_by (st : Store) (t : Nat) (s : String) : List String :=
  (((currentCitations st).filter fun c => c.srcTitle == t && c.srcSection == s).map
    fun c => canonicalKey c.tgtTitle c.tgtSection).dedup

/-- A store with a current-version citation (7,2014) → (7,2012) and a
stale citation (7,2020) → (7,2012) from a non-current version. -/
def demoGraphStore : Store :=
  ⟨[demoVersionA, demoVersionB], [],
   [⟨7, "2014", none, 7, "2012", none, 2, 100⟩,
    ⟨7, "2020", none, 7, "2012", none, 1, 5⟩]⟩

/-- C2: `get_references_to T` lists exactly the sources whose
current-version citations hit T, `get_referenced_by S` lists exactly the
targets S's current-version citations point at, both are empty lists (not
errors) when no citations exist, and the relation is directional: with
the single current edge (7,2014) → (7,2012), the forward and backward
lookups are not symmetric, and the stale edge from a non-current version
does not appear. -/
theorem citation_graph_directional :
    (∀ (st : Store) (t : Nat) (s k : String),
      k ∈ get_references_to st t s ↔
      ∃ c ∈ currentCitations st, c.tgtTitle = t ∧ c.tgtSection = s ∧
        k = canonicalKey c.srcTitle c.srcSection) ∧
    (∀ (st : Store) (t : Nat) (s k : String),
      k ∈ get_referenced_by st t s ↔
      ∃ c ∈ currentCitations st, c.srcTitle = t ∧ c.srcSection = s ∧
        k = canonicalKey c.tgtTitle c.tgtSection) ∧
    (∀ (st : Store) (t : Nat) (s : String), st.citations = [] →
      get_references_to st t s = [] ∧ get_referenced_by st t s = []) ∧
    (get_references_to demoGraphStore 7 "2012" = [canonicalKey 7 "2014"] ∧
     get_referenced_by demoGraphStore 7 "2014" = [canonicalKey 7 "2012"] ∧
     get_references_to demoGraphStore 7 "2014" = [] ∧
     get_referenced_by demoGraphStore 7 "2012" = []) := by
  refine ⟨?_, ?_, ?_, by decide, by decide, by decide, by decide⟩
  · intro st t s k
    rw [get_references_to, List.mem_dedup, List.mem_map]
    constructor
    · rintro ⟨c, hc, rfl⟩
      have hm := List.mem_filter.mp hc
      have hb := hm.2
      simp only [Bool.and_eq_true, beq_iff_eq] at hb
      exact ⟨c, hm.1, hb.1, hb.2, rfl⟩
    · rintro ⟨c, hc, h1, h2, rfl⟩
      exact ⟨c, List.mem_filter.mpr ⟨hc, by simp [h1, h2]⟩, rfl⟩
  · intro st t s k
    rw [get_referenced_by, List.mem_dedup, List.mem_map]
    constructor
    · rintro ⟨c, hc, rfl⟩
      have hm := List.mem_filter.mp hc
      have hb := hm.2
      simp only [Bool.and_eq_true, beq_iff_eq] at hb
      exact ⟨c, hm.1, hb.1, hb.2, rfl⟩
    · rintro ⟨c, hc, h1, h2, rfl⟩
      exact ⟨c, List.mem_filter.mpr ⟨hc, by simp [h1, h2]⟩, rfl⟩
  · intro st t s h
    constructor <;> simp [get_references_to, get_referenced_by,
      currentCitations, h]

/-- Witness for `citation_graph_directional` at the empty citation set. -/
theorem citation_graph_directional_witness :
    get_references_to ⟨[], [], []⟩ 7 "2012" = [] ∧
    get_referenced_by ⟨[], [], []⟩ 7 "2012" = [] :=
  citation_graph_directional.2.2.1 ⟨[], [], []⟩ 7 "2012" rfl

/-- The upsert key of a stored section row: (title, section, subsection,
version), the uniqueness key of spec §3. -/
def sectionKey (r : SectionRow) : Nat × String × Option String × Nat :=
  (r.title, r.sectionLabel, r.subsection, r.versionId)

/-- Modelled from the spec (§4.3, the realization is not in the snapshot):
`store_section` is an upsert keyed by (title, section, subsection,
version) — it replaces the row with that key when present and appends a
new historical row otherwise. -/
def store_section (st : Store) (r : SectionRow) : Store :=
  if st.sections.any (fun r0 => decide (sectionKey r0 = sectionKey r)) then
    { st with sections :=
        st.sections.map fun r0 => if sectionKey r0 = sectionKey r then r else r0 }
  else
    { st with sections := st.sections ++ [r] }

theorem store_section_versions (st : Store) (r : SectionRow) :
    (store_section st r).versions = st.versions := by
  rw [store_section]
  split <;> rfl

theorem store_section_citations (st : Store) (r : SectionRow) :
    (store_section st r).citations = st.citations := by
  rw [store_section]
  split <;> rfl

theorem map_self_of_fix {α : Type} (f : α → α) (l : List α)
    (h : ∀ a ∈ l, f a = a) : l.map f = l := by
  induction l with
  | nil => rfl
  | cons x xs ih =>
      simp only [List.map_cons, h x (List.mem_cons_self x xs),
        ih fun a ha => h a (List.mem_cons_of_mem x ha)]

theorem store_section_noop (st : Store) (r : SectionRow) (hr : r ∈ st.sections)
    (huniq : ∀ r1 ∈ st.sections, sectionKey r1 = sectionKey r → r1 = r) :
    store_section st r = st := by
  have hany : st.sections.any (fun r0 => decide (sectionKey r0 = sectionKey r)) = true :=
    List.any_eq_true.mpr ⟨r, hr, by simp⟩
  rw [store_section, if_pos hany]
  rw [map_self_of_fix _ _ fun r0 h0 => by
    by_cases hk : sectionKey r0 = sectionKey r
    · rw [if_pos hk, huniq r0 h0 hk]
    · rw [if_neg hk]]

theorem store_section_mem (st : Store) (r : SectionRow) :
    r ∈ (store_section st r).sections := by
  by_cases hc : st.sections.any (fun r0 => decide (sectionKey r0 = sectionKey r)) = true
  · rw [store_section, if_pos hc]
    rcases List.any_eq_true.mp hc with ⟨r0, hr0, hk⟩
    exact List.mem_map.mpr ⟨r0, hr0, by rw [if_pos (of_decide_eq_true hk)]⟩
  · rw [store_section, if_neg hc]
    exact List.mem_append.mpr (Or.inr (List.mem_singleton.mpr rfl))

theorem store_section_key_eq (st : Store) (r : SectionRow) :
    ∀ r1 ∈ (store_section st r).sections, sectionKey r1 = sectionKey r → r1 = r := by
  intro r1 h1 hk1
  by_cases hc : st.sections.any (fun r0 => decide (sectionKey r0 = sectionKey r)) = true
  · rw [store_section, if_pos hc] at h1
    rcases List.mem_map.mp h1 with ⟨r0, _, hr0⟩
    by_cases hk : sectionKey r0 = sectionKey r
    · rw [if_pos hk] at hr0; exact hr0.symm
    · rw [if_neg hk] at hr0; exact absurd (hr0 ▸ hk1) hk
  · rw [store_section, if_neg hc] at h1
    rcases List.mem_append.mp h1 with hin | hin
    · exact absurd (List.any_eq_true.mpr ⟨r1, hin, decide_eq_true hk1⟩) hc
    · exact List.mem_singleton.mp hin

theorem store_section_idem (st : Store) (r : SectionRow) :
    store_section (store_section st r) r = store_section st r :=
  store_section_noop _ r (store_section_mem st r) (store_section_key_eq st r)

theorem store_section_append (st : Store) (r : SectionRow)
    (h : ∀ r0 ∈ st.sections, sectionKey r0 ≠ sectionKey r) :
    (store_section st r).sections = st.sections ++ [r] := by
  have hc : ¬st.sections.any (fun r0 => decide (sectionKey r0 = sectionKey r)) = true := by
    intro hc
    rcases List.any_eq_true.mp hc with ⟨r0, h0, hk⟩
    exact h r0 h0 (of_decide_eq_true hk)
  rw [store_section, if_neg hc]

/-- C4: `store_section` is an idempotent upsert keyed by (title, section,
subsection, version): storing a row already present under that key (keys
being unique per the §3 invariant) leaves the store unchanged; storing
twice equals storing once; and storing a row whose key — in particular
its version — is new appends a historical row, leaving all existing rows
in place. -/
theorem store_section_upsert :
    (∀ (st : Store) (r : SectionRow), r ∈ st.sections →
      (∀ r1 ∈ st.sections, sectionKey r1 = sectionKey r → r1 = r) →
      store_section st r = st) ∧
    (∀ (st : Store) (r : SectionRow),
      store_section (store_section st r) r = store_section st r) ∧
    (∀ (st : Store) (r : SectionRow),
      (∀ r0 ∈ st.sections, sectionKey r0 ≠ sectionKey r) →
      (store_section st r).sections = st.sections ++ [r]) :=
  ⟨store_section_noop, store_section_idem, store_section_append⟩

/-- Witness for `store_section_upsert` at a concrete store. -/
theorem store_section_upsert_witness :
    store_section demoStore demoRowA = demoStore ∧
    (store_section ⟨[], [], []⟩ demoRowB).sections = [demoRowB] := by
  constructor
  · exact store_section_upsert.1 demoStore demoRowA (by decide) (by decide)
  · exact store_section_upsert.2.2 ⟨[], [], []⟩ demoRowB (by decide)

/-- Result of registering a Version in the archive store. -/
inductive StoreVersionResult where
  | stored (st : Store)
  | duplicate (existingId : Nat)
  | conflictingCurrent (existingId : Nat) (newId : Nat)
deriving DecidableEq, Repr

/-- The current Version of a source, if any. -/
def currentFor (st : Store) (src : Nat) : Option Version :=
  st.versions.find? fun v => v.sourceId == src && v.isCurrent

/-- Modelled from the spec (§7, the ingestion realization is not in the
snapshot): registering a Version — an identical content hash for the same
source is a `DuplicateVersion` no-op; a second current Version for a
source is rejected as `ConflictingCurrentVersion` carrying the two
conflicting identifiers; otherwise the Version is appended. -/
def store_version (st : Store) (v : Version) : StoreVersionResult :=
  match st.versions.find?
      (fun w => w.sourceId == v.sourceId && w.contentHash == v.contentHash) with
  | some w => .duplicate w.versionId
  | none =>
      if v.isCurrent then
        match currentFor st v.sourceId with
        | some w => .conflictingCurrent w.versionId v.versionId
        | none => .stored { st with versions := st.versions ++ [v] }
      else .stored { st with versions := st.versions ++ [v] }

/-- Modelled from the spec (§3): for each source, at most one stored
Version is current. -/
def atMostOneCurrent (st : Store) : Prop :=
  ∀ v ∈ st.versions, ∀ w ∈ st.versions,
    v.isCurrent = true → w.isCurrent = true → v.sourceId = w.sourceId → v = w

theorem not_current_of_currentFor_none (st : Store) (src : Nat)
    (h : currentFor st src = none) :
    ∀ w ∈ st.versions, w.sourceId = src → w.isCurrent = false := by
  rw [currentFor] at h
  intro w hw hsrc
  have hp := List.find?_eq_none.mp h w hw
  simp [hsrc] at hp
  exact hp

/-- C5: an attempt to store a second current Version for a source is
rejected with the two conflicting Version identifiers reported, and the
storage operations preserve the at-most-one-current-per-source invariant:
a successful `store_version` keeps it, and `store_section` (which never
touches versions) keeps it too. -/
theorem single_current_version_invariant :
    (∀ (st : Store) (v w : Version),
      currentFor st v.sourceId = some w → v.isCurrent = true →
      st.versions.find? (fun w0 => w0.sourceId == v.sourceId &&
        w0.contentHash == v.contentHash) = none →
      store_version st v = .conflictingCurrent w.versionId v.versionId) ∧
    (∀ (st : Store) (v : Version) (st' : Store),
      atMostOneCurrent st → store_version st v = .stored st' →
      atMostOneCurrent st') ∧
    (∀ (st : Store) (r : SectionRow),
      atMostOneCurrent st → atMostOneCurrent (store_section st r)) := by
  refine ⟨?_, ?_, ?_⟩
  · intro st v w hcur hc hdup
    rw [store_version, hdup, if_pos hc, hcur]
  · intro st v st' hinv hst
    rw [store_version] at hst
    cases hdup : st.versions.find?
        (fun w => w.sourceId == v.sourceId && w.contentHash == v.contentHash) with
    | some w => rw [hdup] at hst; cases hst
    | none =>
        rw [hdup] at hst
        by_cases hc : v.isCurrent = true
        · rw [if_pos hc] at hst
          cases hcur : currentFor st v.sourceId with
          | some w => rw [hcur] at hst; cases hst
          | none =>
              rw [hcur] at hst
              cases hst
              intro a ha b hb hac hbc hsrc
              simp only [List.mem_append, List.mem_singleton] at ha hb
              rcases ha with ha | rfl <;> rcases hb with hb | rfl
              · exact hinv a ha b hb hac hbc hsrc
              · exact absurd hac (by
                  simp [not_current_of_currentFor_none st _ hcur a ha hsrc])
              · exact absurd hbc (by
                  simp [not_current_of_currentFor_none st _ hcur b hb hsrc.symm])
              · rfl
        · rw [if_neg hc] at hst
          cases hst
          intro a ha b hb hac hbc hsrc
          simp only [List.mem_append, List.mem_singleton] at ha hb
          rcases ha with ha | rfl <;> rcases hb with hb | rfl
          · exact hinv a ha b hb hac hbc hsrc
          · exact absurd hbc hc
          · exact absurd hac hc
          · rfl
  · intro st r hinv
    intro a ha b hb
    rw [store_section_versions] at ha hb
    exact hinv a ha b hb

/-- Witness for `single_current_version_invariant`: a second current
Version for source 1 is rejected against the §8 demo store. -/
theorem single_current_version_invariant_witness :
    store_version demoStore ⟨3, 1, "hashC", 30, some 2026, none, true⟩ =
      .conflictingCurrent 2 3 :=
  single_current_version_invariant.1 demoStore
    ⟨3, 1, "hashC", 30, some 2026, none, true⟩ demoVersionB
    (by decide) (by decide) (by decide)

/-- Modelled from the spec (§4.5): case-insensitive whitespace
tokenization keeping short tokens searchable. -/
def tokenize (s : String) : List String :=
  (s.toLower.splitOn " ").filter fun t => t != ""

/-- Occurrences of a token in a token list. -/
def countTok (tok : String) (toks : List String) : Nat :=
  (toks.filter fun t => t == tok).length

/-- Modelled from the spec (§4.5): relevance combines body term frequency
with a heading-match boost. -/
def scoreRow (q : String) (r : SectionRow) : Nat :=
  (tokenize q).foldl
    (fun acc tok =>
      acc + countTok tok (tokenize r.body) + 2 * countTok tok (tokenize r.heading))
    0

/-- The section rows belonging to current versions. -/
def currentRows (st : Store) : List SectionRow :=
  st.sections.filter fun r => (findVersion st r.versionId).any (·.isCurrent)

/-- Modelled from the spec (§3): a search projection — never persisted. -/
structure SearchResult where
  title : Nat
  sectionLabel : String
  subsection : Option String
  snippet : String
  score : Nat
deriving DecidableEq, Repr

/-- The SearchResult projection of a stored row for a query. -/
def toResult (q : String) (r : SectionRow) : SearchResult :=
  ⟨r.title, r.sectionLabel, r.subsection, r.body, scoreRow q r⟩

/-- Modelled from the spec (§4.3): the result order — descending relevance
score, ties broken by (title, section) ascending. -/
def resultLE (a b : SearchResult) : Bool :=
  decide (b.score < a.score) ||
  (decide (a.score = b.score) &&
    (decide (a.title < b.title) ||
      (decide (a.title = b.title) && decide (a.sectionLabel ≤ b.sectionLabel))))

/-- Modelled from the spec (§4.3, the realization is not in the snapshot):
ranked full-text search over current-version rows, optionally scoped to a
title, sorted by `resultLE` and truncated to `limit`. -/
def search (st : Store) (q : String) (tFilter : Option Nat) (limit : Nat) :
    List SearchResult :=
  let rows := (currentRows st).filter fun r => tFilter.all fun t => r.title == t
  let scored := (rows.map (toResult q)).filter fun res => decide (0 < res.score)
  (scored.mergeSort resultLE).take limit

theorem resultLE_trans (a b c : SearchResult) (h1 : resultLE a b = true)
    (h2 : resultLE b c = true) : resultLE a c = true := by
  simp only [resultLE, Bool.or_eq_true, Bool.and_eq_true, decide_eq_true_eq] at h1 h2 ⊢
  rcases h1 with h1 | ⟨hs1, h1⟩
  · rcases h2 with h2 | ⟨hs2, h2⟩ <;> exact Or.inl (by omega)
  · rcases h2 with h2 | ⟨hs2, h2⟩
    · exact Or.inl (by omega)
    · refine Or.inr ⟨by omega, ?_⟩
      rcases h1 with h1 | ⟨ht1, h1⟩
      · rcases h2 with h2 | ⟨ht2, h2⟩ <;> exact Or.inl (by omega)
      · rcases h2 with h2 | ⟨ht2, h2⟩
        · exact Or.inl (by omega)
        · exact Or.inr ⟨by omega, le_trans h1 h2⟩

theorem resultLE_total (a b : SearchResult) :
    (resultLE a b || resultLE b a) = true := by
  simp only [resultLE, Bool.or_eq_true, Bool.and_eq_true, decide_eq_true_eq]
  rcases Nat.lt_trichotomy a.score b.score with h | h | h
  · exact Or.inr (Or.inl h)
  · rcases Nat.lt_trichotomy a.title b.title with ht | ht | ht
    · exact Or.inl (Or.inr ⟨h, Or.inl ht⟩)
    · rcases le_total a.sectionLabel b.sectionLabel with hs | hs
      · exact Or.inl (Or.inr ⟨h, Or.inr ⟨ht, hs⟩⟩)
      · exact Or.inr (Or.inr ⟨h.symm, Or.inr ⟨ht.symm, hs⟩⟩)
    · exact Or.inr (Or.inr ⟨h.symm, Or.inl ht⟩)
  · exact Or.inl (Or.inl h)

/-- C6: `search` returns at most `limit` results, in an order that is
descending in relevance score with ties broken by (title, section)
ascending (every adjacent — hence every — pair respects `resultLE`), and
repeated calls on an unchanged store return the identical list. -/
theorem search_ordering_deterministic (st : Store) (q : String)
    (tFilter : Option Nat) (limit : Nat) :
    (search st q tFilter limit).length ≤ limit ∧
    List.Pairwise (fun a b => resultLE a b = true) (search st q tFilter limit) ∧
    search st q tFilter limit = search st q tFilter limit := by
  refine ⟨?_, ?_, rfl⟩
  · rw [search]
    exact List.length_take_le _ _
  · rw [search]
    exact List.Pairwise.sublist (List.take_sublist _ _)
      (List.sorted_mergeSort resultLE_trans resultLE_total _)
